import Mathlib

/-
Verification of the hive catalog auditor (package main).

The program walks a Hive catalog: it lists databases, filters them through a
configured blacklist, lists the tables of each remaining database, extracts each
storage location of each table from the SHOW CREATE TABLE output, and records one
record per table.  A second pass measures the HDFS size of every location that
contains the scheme token and writes the dated records to MySQL.

The embedding below models the pure decision logic of that pipeline.  External
services (the Hive cursor, the HDFS client) are modelled as oracles returning
Except values: an ok value is the data the service produced during the run, an
error value is the error the corresponding Go call returned.  Go runtime panics
arising from out-of-range slice indexes are modelled explicitly (Option.none or
a dedicated fault constructor), since the source contains unguarded indexing.
-/

/- ===== Go string primitives ===== -/

/-- The single-quote character, written via its code point. -/
def quoteChar : Char := Char.ofNat 39

/-- The single-quote character as a one-character string; the separator of the
strings.Split call in getLocation. -/
def q : String := String.mk [quoteChar]

/-- Wraps a string in single quotes; used to build concrete SHOW CREATE TABLE
location lines in examples. -/
def quoted (s : String) : String := q ++ s ++ q

/-- Fuel-indexed worker for Go strings.Split on character lists: scanning left to
right, each non-overlapping occurrence of the (non-empty) separator ends a group.
The fuel only bounds recursion; callers pass enough for it never to run out. -/
def splitChars (sep : List Char) : Nat → List Char → List (List Char)
  | 0, s => [s]
  | fuel + 1, s =>
    if sep ≠ [] ∧ sep.isPrefixOf s then
      [] :: splitChars sep fuel (s.drop sep.length)
    else
      match s with
      | [] => [[]]
      | c :: cs =>
        match splitChars sep fuel cs with
        | [] => [[c]]
        | g :: gs => (c :: g) :: gs

/-- Models Go strings.Split(s, sep) for a non-empty separator (the only way the
source calls it: the separators are the quote, the scheme token and the slash). -/
def goSplit (s sep : String) : List String :=
  (splitChars sep.toList (s.toList.length + 1) s.toList).map String.mk

/-- Joins strings with a separator; inverse of goSplit on the tail groups. -/
def goIntercalate (sep : String) : List String → String
  | [] => ""
  | [a] => a
  | a :: rest => a ++ sep ++ goIntercalate sep rest

/-- Models Go strings.SplitN(s, sep, 2): the text before the first occurrence of
the separator, then the whole remainder. -/
def goSplitN2 (s sep : String) : List String :=
  match goSplit s sep with
  | [] => []
  | [a] => [a]
  | a :: rest => [a, goIntercalate sep rest]

/-- Substring search on character lists; worker for goContains. -/
def containsSub (sub : List Char) : List Char → Bool
  | [] => sub.isEmpty
  | c :: cs => sub.isPrefixOf (c :: cs) || containsSub sub cs

/-- Models Go strings.Contains(s, sub): does sub occur contiguously in s. -/
def goContains (s sub : String) : Bool := containsSub sub.toList s.toList

/-- Models the message of an error wrapped by failure.Wrap: the library prefixes
call-site context onto the original message, so the result is never empty. -/
def failureWrap (msg : String) : String := "main: " ++ msg

/- ===== Data model ===== -/

/-- The Hive record (struct Hive): the audit result of one table.  The Date column is
stamped uniformly at write time and carries no decision logic, so it is omitted. -/
structure Hive where
  Db : String
  Table : String
  Location : String
  Size : Int
  Desc : String
deriving DecidableEq

/-- The scheme token (const hdfsFlag). -/
def hdfsFlag : String := "hdfs://"

/- ===== LocationParser (func getLocation) ===== -/

/-- Outcome of getLocation: ok is a parsed location, err a returned error value,
fault the Go runtime panic raised by the unguarded index Split(location, quote)[1]. -/
inductive LocResult where
  | ok (location : String)
  | err (msg : String)
  | fault
deriving DecidableEq

/-- Models the tail of getLocation after the scan loop: the accumulated location
is checked against the empty string (returning the wrapped have-no-location error),
then strings.Split(location, quote)[1] extracts the text between the first and
second single quote; when the split yields fewer than two groups the index is out
of range and the program panics. -/
def parseQuoted (location : String) : LocResult :=
  if location = "" then .err (failureWrap "have no location")
  else
    match (goSplit location q).get? 1 with
    | some loc => .ok loc
    | none => .fault

/-- Models the scan loop of getLocation over the fetched rows: the first row equal
to the literal LOCATION (exact comparison, no trimming) selects the next row as the
raw location; if the marker is the last row, or never occurs, the location stays
empty and parseQuoted reports the have-no-location error. -/
def getLocation : List String → LocResult
  | [] => parseQuoted ""
  | line :: rest =>
    if line = "LOCATION" then
      match rest with
      | [] => parseQuoted ""
      | next :: _ => parseQuoted next
    else getLocation rest

/- ===== CatalogWalker (func fetch) ===== -/

/-- Oracle for the Hive cursor during one run: the database listing, the per
database table listing, and the SHOW CREATE TABLE row sequence per table.  An
error value is the wrapped cursor error the corresponding Go helper returned. -/
structure Catalog where
  dbs : Except String (List String)
  tables : String → Except String (List String)
  describe : String → String → Except String (List String)

/-- Models inBlacklist: linear scan of the configured database blacklist. -/
def inBlacklist (blacklist : List String) (db : String) : Bool :=
  match blacklist with
  | [] => false
  | s :: rest => if db = s then true else inBlacklist rest db

/-- The location outcome for one table: a failing SHOW CREATE TABLE query yields
the wrapped cursor error, otherwise the rows go through getLocation. -/
def describeLoc (cat : Catalog) (db table : String) : LocResult :=
  match cat.describe db table with
  | .error e => .err (failureWrap e)
  | .ok lines => getLocation lines

/-- The record fetch appends for one table: a parsed location gives a success
record (zero size, empty description), a location error gives the failure record
with empty location, sentinel size -1 and the error message; a parser panic
(none) aborts the whole program. -/
def tableEntry (cat : Catalog) (db table : String) : Option Hive :=
  match describeLoc cat db table with
  | .ok location => some (Hive.mk db table location 0 "")
  | .err msg => some (Hive.mk db table "" (-1) msg)
  | .fault => none

/-- The inner loop of fetch over the tables of one database, in listing order;
none models the panic propagating out of getLocation. -/
def fetchDb (cat : Catalog) (db : String) : List String → Option (List Hive)
  | [] => some []
  | t :: ts =>
    match tableEntry cat db t with
    | none => none
    | some e =>
      match fetchDb cat db ts with
      | none => none
      | some es => some (e :: es)

/-- Outcome of fetch: the entity list, a returned error (which main turns into
log.Fatal, persisting nothing), or a runtime panic. -/
inductive FetchResult where
  | ok (entities : List Hive)
  | err (msg : String)
  | fault
deriving DecidableEq

/-- The outer loop of fetch over the databases, in listing order: blacklisted
databases are skipped entirely; a failing SHOW TABLES returns the error
immediately, discarding every record accumulated so far (Go returns nil, err). -/
def fetchDbs (cat : Catalog) (blacklist : List String) : List String → FetchResult
  | [] => .ok []
  | d :: ds =>
    if inBlacklist blacklist d then fetchDbs cat blacklist ds
    else
      match cat.tables d with
      | .error e => .err (failureWrap e)
      | .ok ts =>
        match fetchDb cat d ts with
        | none => .fault
        | some es =>
          match fetchDbs cat blacklist ds with
          | .ok more => .ok (es ++ more)
          | r => r

/-- Models fetch: a failing SHOW DATABASES aborts with the wrapped error,
otherwise the walk processes every listed database. -/
def fetch (cat : Catalog) (blacklist : List String) : FetchResult :=
  match cat.dbs with
  | .error e => .err (failureWrap e)
  | .ok ds => fetchDbs cat blacklist ds

/- ===== SizeResolver (funcs parseHdfsLocation, getHdfsSize) and the size pass of main ===== -/

/-- Oracle for the HDFS client: GetContentSummary over a path, yielding the byte
total or the error the call returned. -/
structure FS where
  contentSize : String → Except String Int

/-- Models parseHdfsLocation: Split on the scheme token, take element 1, SplitN
on the slash in two, take element 1, re-root under a slash and append a trailing
slash.  none models the Go runtime panic when either index is out of range. -/
def parseHdfsLocation (location : String) : Option String :=
  match (goSplit location hdfsFlag).get? 1 with
  | none => none
  | some tail =>
    match (goSplitN2 tail "/").get? 1 with
    | none => none
    | some p => some ("/" ++ p ++ "/")

/-- Models getHdfsSize: derive the path, query the filesystem, wrap any error;
none models the panic propagating out of parseHdfsLocation. -/
def getHdfsSize (fs : FS) (location : String) : Option (Except String Int) :=
  match parseHdfsLocation location with
  | none => none
  | some path =>
    match fs.contentSize path with
    | .error e => some (.error (failureWrap e))
    | .ok n => some (.ok n)

/-- Models one iteration of the size loop in main: a location containing the
scheme token is measured (a failing query sets the sentinel size and the error
message, keeping every other field; a successful one backfills the size), any
other location leaves the record untouched. -/
def applySize (fs : FS) (e : Hive) : Option Hive :=
  if goContains e.Location hdfsFlag then
    match getHdfsSize fs e.Location with
    | none => none
    | some (.error m) => some { e with Size := -1, Desc := m }
    | some (.ok n) => some { e with Size := n }
  else some e

/-- Models the whole size loop of main over the fetched records, in order;
none models a panic aborting the process. -/
def sizePass (fs : FS) : List Hive → Option (List Hive)
  | [] => some []
  | e :: rest =>
    match applySize fs e with
    | none => none
    | some e2 =>
      match sizePass fs rest with
      | none => none
      | some es => some (e2 :: es)

/-- Invariant of the records fetch produces, before the size pass: a success
record has size 0 and empty description, a failure record has the sentinel size,
a non-empty description and an empty location. -/
def entryInv (e : Hive) : Prop :=
  (e.Size = 0 ∧ e.Desc = "") ∨ (e.Size = -1 ∧ e.Desc ≠ "" ∧ e.Location = "")

/- ===== Concrete runs used as witnesses ===== -/

/-- Table listing of the witness run: the ods database has one table. -/
def TW : String → List String := fun d => if d = "ods" then ["t1"] else []

/-- A fully successful witness run: two databases, one blacklisted, one table
with a quoted measurable location. -/
def catW : Catalog :=
  Catalog.mk (.ok ["ods", "stg_stream"]) (fun d => .ok (TW d))
    (fun _ _ => .ok ["LOCATION", quoted "hdfs://c/t1"])

/-- A run whose listings all succeed but whose schema description carries a
non-empty location line without any single quote: the parser panics. -/
def catFaulty : Catalog :=
  Catalog.mk (.ok ["d"]) (fun _ => .ok ["t"]) (fun _ _ => .ok ["LOCATION", "x"])

/-- A run whose database listing fails. -/
def catDbsFail : Catalog :=
  Catalog.mk (.error "boom") (fun _ => .ok []) (fun _ _ => .ok [])

/-- A run whose table listing fails for the only database. -/
def catTblFail : Catalog :=
  Catalog.mk (.ok ["d"]) (fun _ => .error "tblboom") (fun _ _ => .ok [])

/-- A run whose describe-table call fails for the only table. -/
def catDescFail : Catalog :=
  Catalog.mk (.ok ["d"]) (fun _ => .ok ["t"]) (fun _ _ => .error "describe boom")

/-- A filesystem oracle that measures every path at 1024 bytes. -/
def fsOk : FS := FS.mk (fun _ => .ok 1024)

/-- A filesystem oracle whose every query fails. -/
def fsDown : FS := FS.mk (fun _ => .error "connection refused")

/- ===== Helper lemmas ===== -/

theorem failureWrap_ne_empty (s : String) : failureWrap s ≠ "" := by
  intro h
  have h2 := congrArg String.length h
  rw [failureWrap, String.length_append] at h2
  rw [show ("main: ").length = 6 from rfl, show ("" : String).length = 0 from rfl] at h2
  omega

theorem containsSub_iff (sub l : List Char) : containsSub sub l = true ↔ sub <:+: l := by
  induction l with
  | nil => simp [containsSub, List.isEmpty_iff]
  | cons c cs ih =>
    simp [containsSub, List.infix_cons_iff, ih, List.isPrefixOf_iff_prefix]

theorem goContains_iff (s sub : String) :
    goContains s sub = true ↔ sub.toList <:+: s.toList :=
  containsSub_iff sub.toList s.toList

theorem getLocation_err_msg (lines : List String) (m : String)
    (h : getLocation lines = .err m) : m = failureWrap "have no location" := by
  induction lines with
  | nil =>
    simp only [getLocation, parseQuoted, if_pos rfl] at h
    injection h with h2
    exact h2.symm
  | cons line rest ih =>
    simp only [getLocation] at h
    by_cases hl : line = "LOCATION"
    · rw [if_pos hl] at h
      match rest with
      | [] =>
        simp only [parseQuoted, if_pos rfl] at h
        injection h with h2
        exact h2.symm
      | next :: _ =>
        simp only [parseQuoted] at h
        by_cases hn : next = ""
        · rw [if_pos hn] at h
          injection h with h2
          exact h2.symm
        · rw [if_neg hn] at h
          cases hg : (goSplit next q).get? 1 <;> simp only [hg] at h <;> cases h
    · rw [if_neg hl] at h
      exact ih h

theorem describeLoc_err_ne_empty (cat : Catalog) (d t m : String)
    (h : describeLoc cat d t = .err m) : m ≠ "" := by
  rw [describeLoc] at h
  cases hd : cat.describe d t with
  | error e =>
    rw [hd] at h
    simp only at h
    injection h with h2
    rw [← h2]
    exact failureWrap_ne_empty e
  | ok lines =>
    rw [hd] at h
    simp only at h
    rw [getLocation_err_msg lines m h]
    exact failureWrap_ne_empty _

theorem getHdfsSize_err_wrap (fs : FS) (loc m : String)
    (h : getHdfsSize fs loc = some (.error m)) : ∃ e0, m = failureWrap e0 := by
  cases hp : parseHdfsLocation loc with
  | none => simp [getHdfsSize, hp] at h
  | some path =>
    cases hc : fs.contentSize path with
    | error e =>
      simp only [getHdfsSize, hp, hc] at h
      injection h with h2
      injection h2 with h3
      exact ⟨e, h3.symm⟩
    | ok n => simp [getHdfsSize, hp, hc] at h

theorem getHdfsSize_ok_src (fs : FS) (loc : String) (n : Int)
    (h : getHdfsSize fs loc = some (.ok n)) : ∃ p, fs.contentSize p = .ok n := by
  cases hp : parseHdfsLocation loc with
  | none => simp [getHdfsSize, hp] at h
  | some path =>
    cases hc : fs.contentSize path with
    | error e => simp [getHdfsSize, hp, hc] at h
    | ok k =>
      simp only [getHdfsSize, hp, hc] at h
      injection h with h2
      injection h2 with h3
      exact ⟨path, h3 ▸ hc⟩

theorem fetchDb_pairs (cat : Catalog) (d : String) (ts : List String)
    (h : ∀ t ∈ ts, describeLoc cat d t ≠ .fault) :
    ∃ es, fetchDb cat d ts = some es ∧
      es.map (fun e => (e.Db, e.Table)) = ts.map (fun t => (d, t)) := by
  induction ts with
  | nil => exact ⟨[], rfl, rfl⟩
  | cons t ts ih =>
    obtain ⟨es, hes, hmap⟩ := ih (fun u hu => h u (List.mem_cons_of_mem t hu))
    have ht := h t (List.mem_cons_self t ts)
    cases hd : describeLoc cat d t with
    | ok loc =>
      refine ⟨Hive.mk d t loc 0 "" :: es, ?_, ?_⟩
      · simp only [fetchDb, tableEntry, hd, hes]
      · simp [hmap]
    | err msg =>
      refine ⟨Hive.mk d t "" (-1) msg :: es, ?_, ?_⟩
      · simp only [fetchDb, tableEntry, hd, hes]
      · simp [hmap]
    | fault => exact absurd hd ht

theorem fetchDbs_pairs (cat : Catalog) (bl : List String) (dbs : List String)
    (T : String → List String)
    (htab : ∀ d ∈ dbs, inBlacklist bl d = false → cat.tables d = .ok (T d))
    (hnf : ∀ d ∈ dbs, inBlacklist bl d = false →
      ∀ t ∈ T d, describeLoc cat d t ≠ .fault) :
    ∃ es, fetchDbs cat bl dbs = .ok es ∧
      es.map (fun e => (e.Db, e.Table)) =
        (dbs.filter (fun d => !inBlacklist bl d)).flatMap
          (fun d => (T d).map (fun t => (d, t))) := by
  induction dbs with
  | nil => exact ⟨[], rfl, rfl⟩
  | cons d ds ih =>
    obtain ⟨es2, hes2, hmap2⟩ :=
      ih (fun u hu hb => htab u (List.mem_cons_of_mem d hu) hb)
        (fun u hu hb => hnf u (List.mem_cons_of_mem d hu) hb)
    cases hb : inBlacklist bl d with
    | true =>
      refine ⟨es2, ?_, ?_⟩
      · simp only [fetchDbs, hb, if_true]
        exact hes2
      · simp [List.filter_cons, hb, hmap2]
    | false =>
      obtain ⟨es1, hes1, hmap1⟩ :=
        fetchDb_pairs cat d (T d) (hnf d (List.mem_cons_self d ds) hb)
      refine ⟨es1 ++ es2, ?_, ?_⟩
      · simp [fetchDbs, hb, htab d (List.mem_cons_self d ds) hb, hes1, hes2]
      · simp [List.filter_cons, hb, hmap1, hmap2]

theorem tableEntry_inv (cat : Catalog) (d t : String) (e : Hive)
    (h : tableEntry cat d t = some e) : entryInv e := by
  rw [tableEntry] at h
  cases hd : describeLoc cat d t with
  | ok loc =>
    rw [hd] at h
    simp only at h
    injection h with h2
    rw [← h2]
    exact Or.inl ⟨rfl, rfl⟩
  | err msg =>
    rw [hd] at h
    simp only at h
    injection h with h2
    rw [← h2]
    exact Or.inr ⟨rfl, describeLoc_err_ne_empty cat d t msg hd, rfl⟩
  | fault =>
    rw [hd] at h
    cases h

theorem fetchDb_inv (cat : Catalog) (d : String) (ts : List String)
    (es : List Hive) (h : fetchDb cat d ts = some es) : ∀ e ∈ es, entryInv e := by
  induction ts generalizing es with
  | nil =>
    injection h with h2
    rw [← h2]
    intro e he
    cases he
  | cons t ts ih =>
    simp only [fetchDb] at h
    cases ht : tableEntry cat d t with
    | none => rw [ht] at h; cases h
    | some e1 =>
      rw [ht] at h
      simp only at h
      cases hr : fetchDb cat d ts with
      | none => rw [hr] at h; cases h
      | some es1 =>
        rw [hr] at h
        simp only at h
        injection h with h2
        rw [← h2]
        intro x hx
        rcases List.mem_cons.mp hx with hx | hx
        · rw [hx]; exact tableEntry_inv cat d t e1 ht
        · exact ih es1 hr x hx

theorem fetchDbs_inv (cat : Catalog) (bl : List String) (dbs : List String)
    (es : List Hive) (h : fetchDbs cat bl dbs = .ok es) : ∀ e ∈ es, entryInv e := by
  induction dbs generalizing es with
  | nil =>
    injection h with h2
    rw [← h2]
    intro e he
    cases he
  | cons d ds ih =>
    simp only [fetchDbs] at h
    cases hb : inBlacklist bl d with
    | true =>
      rw [hb] at h
      simp only [if_true] at h
      exact ih es h
    | false =>
      rw [hb] at h
      simp only [Bool.false_eq_true, if_false] at h
      cases ht : cat.tables d with
      | error e0 => rw [ht] at h; cases h
      | ok ts =>
        rw [ht] at h
        simp only at h
        cases hf : fetchDb cat d ts with
        | none => rw [hf] at h; cases h
        | some es1 =>
          rw [hf] at h
          simp only at h
          cases hr : fetchDbs cat bl ds with
          | ok more =>
            rw [hr] at h
            simp only at h
            injection h with h2
            rw [← h2]
            intro x hx
            rcases List.mem_append.mp hx with hx | hx
            · exact fetchDb_inv cat d ts es1 hf x hx
            · exact ih more hr x hx
          | err m => rw [hr] at h; cases h
          | fault => rw [hr] at h; cases h

theorem fetch_inv (cat : Catalog) (bl : List String) (es : List Hive)
    (h : fetch cat bl = .ok es) : ∀ e ∈ es, entryInv e := by
  rw [fetch] at h
  cases hd : cat.dbs with
  | error e0 => rw [hd] at h; cases h
  | ok ds =>
    rw [hd] at h
    simp only at h
    exact fetchDbs_inv cat bl ds es h

theorem applySize_inv (fs : FS) (e e2 : Hive)
    (hpos : ∀ p n, fs.contentSize p = .ok n → (0 : Int) ≤ n)
    (hinv : entryInv e) (h : applySize fs e = some e2) :
    (e2.Size = -1 ↔ e2.Desc ≠ "") := by
  rw [applySize] at h
  by_cases hc : goContains e.Location hdfsFlag = true
  · rw [if_pos hc] at h
    rcases hinv with ⟨hs, hd⟩ | ⟨hs, hd, hl⟩
    · cases hg : getHdfsSize fs e.Location with
      | none => rw [hg] at h; cases h
      | some r =>
        cases r with
        | error m =>
          rw [hg] at h
          simp only at h
          injection h with h2
          rw [← h2]
          obtain ⟨e0, he0⟩ := getHdfsSize_err_wrap fs e.Location m hg
          constructor
          · intro _
            show m ≠ ""
            rw [he0]
            exact failureWrap_ne_empty e0
          · intro _
            rfl
        | ok n =>
          rw [hg] at h
          simp only at h
          injection h with h2
          rw [← h2]
          obtain ⟨p, hp⟩ := getHdfsSize_ok_src fs e.Location n hg
          have hn := hpos p n hp
          constructor
          · intro hx
            show e.Desc ≠ ""
            have : n = -1 := hx
            omega
          · intro hx
            exact absurd hd hx
    · rw [hl] at hc
      exact absurd hc (by decide)
  · rw [if_neg hc] at h
    injection h with h2
    rw [← h2]
    rcases hinv with ⟨hs, hd⟩ | ⟨hs, hd, hl⟩
    · constructor
      · intro hx
        rw [hs] at hx
        cases hx
      · intro hx
        exact absurd hd hx
    · constructor
      · intro _
        exact hd
      · intro _
        exact hs

theorem sizePass_inv (fs : FS) (es es2 : List Hive)
    (hpos : ∀ p n, fs.contentSize p = .ok n → (0 : Int) ≤ n)
    (hinv : ∀ e ∈ es, entryInv e) (h : sizePass fs es = some es2) :
    ∀ e2 ∈ es2, (e2.Size = -1 ↔ e2.Desc ≠ "") := by
  induction es generalizing es2 with
  | nil =>
    injection h with h2
    rw [← h2]
    intro e2 he2
    cases he2
  | cons e rest ih =>
    simp only [sizePass] at h
    cases ha : applySize fs e with
    | none => rw [ha] at h; cases h
    | some e1 =>
      rw [ha] at h
      simp only at h
      cases hr : sizePass fs rest with
      | none => rw [hr] at h; cases h
      | some es1 =>
        rw [hr] at h
        simp only at h
        injection h with h2
        rw [← h2]
        intro x hx
        rcases List.mem_cons.mp hx with hx | hx
        · rw [hx]
          exact applySize_inv fs e e1 hpos (hinv e (List.mem_cons_self e rest)) ha
        · exact ih es1 (fun u hu => hinv u (List.mem_cons_of_mem e hu)) hr x hx

theorem fetchDbs_tables_error_not_ok (cat : Catalog) (bl : List String)
    (d e0 : String) (hb : inBlacklist bl d = false)
    (ht : cat.tables d = .error e0) :
    ∀ dbs, d ∈ dbs → ∀ es, fetchDbs cat bl dbs ≠ .ok es := by
  intro dbs
  induction dbs with
  | nil =>
    intro hmem
    cases hmem
  | cons x ds ih =>
    intro hmem es h
    rcases List.mem_cons.mp hmem with rfl | hmem2
    · rw [fetchDbs, hb] at h
      simp only [Bool.false_eq_true, if_false, ht] at h
      cases h
    · cases hbx : inBlacklist bl x with
      | true =>
        rw [fetchDbs, hbx] at h
        simp only [if_true] at h
        exact ih hmem2 es h
      | false =>
        rw [fetchDbs, hbx] at h
        simp only [Bool.false_eq_true, if_false] at h
        cases ht2 : cat.tables x with
        | error e1 => rw [ht2] at h; cases h
        | ok ts =>
          rw [ht2] at h
          simp only at h
          cases hf : fetchDb cat x ts with
          | none => rw [hf] at h; cases h
          | some es1 =>
            rw [hf] at h
            simp only at h
            cases hr : fetchDbs cat bl ds with
            | ok more => exact ih hmem2 more hr
            | err m => rw [hr] at h; cases h
            | fault => rw [hr] at h; cases h

/- ===== Claim theorems ===== -/

/-- Claim C1, counterexample: a run in which the database listing and the table
listing both succeed, yet the walk returns no sequence at all: the
schema description drives the location parser into its indexing fault, so fetch
panics instead of producing the one entry the claim requires. -/
theorem c1_counterexample :
    catFaulty.dbs = .ok ["d"] ∧ catFaulty.tables "d" = .ok ["t"] ∧
    inBlacklist [] "d" = false ∧ fetch catFaulty [] = .fault := by
  refine ⟨rfl, rfl, rfl, by decide⟩

/-- Claim C1 (amended): when the database listing and every table listing
succeed, and additionally no schema description of a non-blacklisted table
drives the location parser into its indexing fault, the walk returns a
sequence holding exactly one record for each non-blacklisted (database, table)
pair given by the catalog, in the database/table listing order, with no
re-sorting. -/
theorem c1_walk_pairs (cat : Catalog) (bl : List String)
    (dbs : List String) (T : String → List String)
    (hdbs : cat.dbs = .ok dbs)
    (htab : ∀ d ∈ dbs, inBlacklist bl d = false → cat.tables d = .ok (T d))
    (hnf : ∀ d ∈ dbs, inBlacklist bl d = false →
      ∀ t ∈ T d, describeLoc cat d t ≠ .fault) :
    ∃ es, fetch cat bl = .ok es ∧
      es.map (fun e => (e.Db, e.Table)) =
        (dbs.filter (fun d => !inBlacklist bl d)).flatMap
          (fun d => (T d).map (fun t => (d, t))) := by
  have h2 := fetchDbs_pairs cat bl dbs T htab hnf
  rw [fetch, hdbs]
  simpa using h2

/-- Witness for C1: in the witness run the walk returns exactly the pair
(ods, t1), in order, and nothing for the blacklisted database. -/
theorem c1_walk_pairs_witness :
    ∃ es, fetch catW ["stg_stream"] = .ok es ∧
      es.map (fun e => (e.Db, e.Table)) =
        ((["ods", "stg_stream"]).filter
            (fun d => !inBlacklist ["stg_stream"] d)).flatMap
          (fun d => (TW d).map (fun t => (d, t))) :=
  c1_walk_pairs catW ["stg_stream"] ["ods", "stg_stream"] TW rfl
    (fun _ _ _ => rfl)
    (fun _ _ _ t _ => by
      show getLocation ["LOCATION", quoted "hdfs://c/t1"] ≠ LocResult.fault
      decide)

/-- Claim C2: every record in the final output (after the size pass) has the
sentinel size -1 exactly when its description is non-empty, provided the
filesystem returns non-negative sizes on success; and a record whose location
is not measurable is left untouched by the size pass, keeping its zero size
and empty description. -/
theorem c2_sentinel_coupling (cat : Catalog) (bl : List String) (fs : FS)
    (es es2 : List Hive)
    (hf : fetch cat bl = .ok es) (hs : sizePass fs es = some es2)
    (hpos : ∀ p n, fs.contentSize p = .ok n → (0 : Int) ≤ n) :
    (∀ e ∈ es2, (e.Size = -1 ↔ e.Desc ≠ "")) ∧
    (∀ e : Hive, goContains e.Location hdfsFlag = false → applySize fs e = some e) := by
  refine ⟨sizePass_inv fs es es2 hpos (fetch_inv cat bl es hf) hs, ?_⟩
  intro e hc
  simp [applySize, hc]

/-- Witness for C2: the single entry of the witness run, measured at 1024
bytes, satisfies the sentinel-coupling invariant. -/
theorem c2_sentinel_coupling_witness :
    ((Hive.mk "ods" "t1" "hdfs://c/t1" 1024 "").Size = -1 ↔
      (Hive.mk "ods" "t1" "hdfs://c/t1" 1024 "").Desc ≠ "") :=
  (c2_sentinel_coupling catW ["stg_stream"] fsOk
      [Hive.mk "ods" "t1" "hdfs://c/t1" 0 ""]
      [Hive.mk "ods" "t1" "hdfs://c/t1" 1024 ""]
      (by decide) (by decide)
      (fun p n h => by injection h with h2; omega)).1
    (Hive.mk "ods" "t1" "hdfs://c/t1" 1024 "") (by simp)

/-- Claim C3 (code bug): the parser fails with the wrapped have-no-location
error when no marker row occurs, but on a marker row followed by a non-empty
row with no single quote it hits the out-of-range index (a runtime panic)
instead of failing with NotFound; with exactly one quote it succeeds with the
suffix after the quote, and with an empty text between the quotes it succeeds
with the empty string, both of which the claim requires to be NotFound. -/
theorem c3_parser_fault_on_missing_quotes :
    getLocation ["LOCATION", "x"] = .fault ∧
    getLocation ["LOCATION", q ++ "a"] = .ok "a" ∧
    getLocation ["LOCATION", q ++ q ++ "sfx"] = .ok "" ∧
    getLocation ["abc"] = .err (failureWrap "have no location") := by
  decide

/-- Claim C4, counterexample: a marker line padded with whitespace is not
recognized by the scan, which compares for exact equality: the parse fails
with the have-no-location error instead of returning the quoted path. -/
theorem c4_counterexample_padded_marker :
    getLocation ["  LOCATION  ", quoted "a"] = .err (failureWrap "have no location") ∧
    getLocation ["  LOCATION  ", quoted "a"] ≠ .ok "a" := by
  decide

/-- Claim C4 (amended): only a line exactly equal to the literal LOCATION is
recognized as the marker (whitespace padding is not stripped); for every line
sequence whose first such marker is followed by a non-empty line, the parse
returns the text between the first and second single quote of that line
(element 1 of the split on the quote character). -/
theorem c4_marker_then_quoted_path (pre : List String) (next p : String)
    (rest : List String)
    (hpre : "LOCATION" ∉ pre) (hne : next ≠ "")
    (hsplit : (goSplit next q).get? 1 = some p) :
    getLocation (pre ++ "LOCATION" :: next :: rest) = .ok p := by
  induction pre with
  | nil =>
    have hstep : getLocation ("LOCATION" :: next :: rest) = parseQuoted next := by
      simp [getLocation]
    rw [List.nil_append, hstep, parseQuoted, if_neg hne, hsplit]
  | cons l pre ih =>
    have hl : l ≠ "LOCATION" := fun hx => hpre (hx ▸ List.mem_cons_self l pre)
    simp only [List.cons_append, getLocation, if_neg hl]
    exact ih (fun hx => hpre (List.mem_cons_of_mem l hx))

/-- Witness for C4: the spec example, with an exactly matching marker line and
the quoted path on the following line, parses to the path. -/
theorem c4_marker_then_quoted_path_witness :
    getLocation ["...", "LOCATION",
        "  " ++ quoted "hdfs://cluster/warehouse/db.db/t" ++ "  "]
      = .ok "hdfs://cluster/warehouse/db.db/t" :=
  c4_marker_then_quoted_path ["..."]
    ("  " ++ quoted "hdfs://cluster/warehouse/db.db/t" ++ "  ")
    "hdfs://cluster/warehouse/db.db/t" [] (by decide) (by decide) (by decide)

/-- Claim C5: a table whose describe call or location parsing fails (with an
error, not a panic) contributes exactly the failure record with empty
location, sentinel size -1 and the error message, at its position in listing
order, and the walk over the remaining tables continues unaffected: the
whole inner walk succeeds whenever the walks over the surrounding tables do. -/
theorem c5_per_table_failure_nonfatal (cat : Catalog) (d t m : String)
    (ts1 ts2 : List String) (h : describeLoc cat d t = .err m) :
    tableEntry cat d t = some (Hive.mk d t "" (-1) m) ∧
    fetchDb cat d (ts1 ++ t :: ts2) =
      (fetchDb cat d ts1).bind (fun es1 =>
        (fetchDb cat d ts2).map (fun es2 =>
          es1 ++ Hive.mk d t "" (-1) m :: es2)) := by
  have hentry : tableEntry cat d t = some (Hive.mk d t "" (-1) m) := by
    simp only [tableEntry, h]
  refine ⟨hentry, ?_⟩
  induction ts1 with
  | nil =>
    simp only [List.nil_append, fetchDb, hentry]
    cases h2 : fetchDb cat d ts2 with
    | none => simp
    | some es2 => simp
  | cons u ts1 ih =>
    have hstep : fetchDb cat d ((u :: ts1) ++ t :: ts2) =
        match tableEntry cat d u with
        | none => none
        | some e1 =>
          match fetchDb cat d (ts1 ++ t :: ts2) with
          | none => none
          | some es => some (e1 :: es) := rfl
    have hstep2 : fetchDb cat d (u :: ts1) =
        match tableEntry cat d u with
        | none => none
        | some e1 =>
          match fetchDb cat d ts1 with
          | none => none
          | some es => some (e1 :: es) := rfl
    rw [hstep, ih, hstep2]
    cases hu : tableEntry cat d u with
    | none => simp
    | some e1 =>
      simp only
      cases h1 : fetchDb cat d ts1 with
      | none => simp
      | some es1 =>
        cases h2 : fetchDb cat d ts2 with
        | none => simp
        | some es2 => simp

/-- Witness for C5: a run whose only describe call fails yields exactly the
failure record for that table. -/
theorem c5_per_table_failure_nonfatal_witness :
    tableEntry catDescFail "d" "t"
        = some (Hive.mk "d" "t" "" (-1) (failureWrap "describe boom")) ∧
    fetchDb catDescFail "d" ([] ++ "t" :: []) =
      (fetchDb catDescFail "d" []).bind (fun es1 =>
        (fetchDb catDescFail "d" []).map (fun es2 =>
          es1 ++ Hive.mk "d" "t" "" (-1) (failureWrap "describe boom") :: es2)) :=
  c5_per_table_failure_nonfatal catDescFail "d" "t" (failureWrap "describe boom")
    [] [] rfl

/-- Claim C6: a failing database listing makes fetch return the wrapped error
with no entries, and a failing table listing for any non-blacklisted listed
database prevents fetch from returning any entity list at all (no partial
output; main aborts before persisting anything). -/
theorem c6_fatal_listing_errors (cat : Catalog) (bl : List String) :
    (∀ e0, cat.dbs = .error e0 → fetch cat bl = .err (failureWrap e0)) ∧
    (∀ dbs d e0 es, cat.dbs = .ok dbs → d ∈ dbs → inBlacklist bl d = false →
      cat.tables d = .error e0 → fetch cat bl ≠ .ok es) := by
  constructor
  · intro e0 h
    simp [fetch, h]
  · intro dbs d e0 es hdbs hmem hb ht h
    rw [fetch, hdbs] at h
    simp only at h
    exact fetchDbs_tables_error_not_ok cat bl d e0 hb ht dbs hmem es h

/-- Witness for C6: a failing database listing yields the wrapped fatal error,
and a failing table listing prevents any entity list (here the empty one). -/
theorem c6_fatal_listing_errors_witness :
    fetch catDbsFail [] = .err (failureWrap "boom") ∧
    fetch catTblFail [] ≠ .ok [] :=
  ⟨(c6_fatal_listing_errors catDbsFail []).1 "boom" rfl,
    (c6_fatal_listing_errors catTblFail []).2 ["d"] "d" "tblboom" [] rfl
      (by simp) rfl rfl⟩

/-- Claim C7: the path handed to the filesystem query is obtained by splitting
the location on the scheme token, taking the text after its first occurrence,
splitting that in two on the first slash to drop the authority segment, and
re-rooting the remainder under a slash with a trailing slash appended; the
size query is then made at exactly that path. -/
theorem c7_path_derivation (loc tail rest : String)
    (h1 : (goSplit loc hdfsFlag).get? 1 = some tail)
    (h2 : (goSplitN2 tail "/").get? 1 = some rest) :
    parseHdfsLocation loc = some ("/" ++ rest ++ "/") ∧
    ∀ fs : FS, getHdfsSize fs loc =
      some ((fs.contentSize ("/" ++ rest ++ "/")).mapError failureWrap) := by
  have hp : parseHdfsLocation loc = some ("/" ++ rest ++ "/") := by
    simp only [parseHdfsLocation, h1, h2]
  refine ⟨hp, fun fs => ?_⟩
  rw [getHdfsSize, hp]
  cases hc : fs.contentSize ("/" ++ rest ++ "/") with
  | error e => simp [Except.mapError, hc]
  | ok n => simp [Except.mapError, hc]

/-- Witness for C7: the spec example location derives the expected path. -/
theorem c7_path_derivation_witness :
    parseHdfsLocation "hdfs://clusterA/warehouse/db.db/t"
      = some "/warehouse/db.db/t/" :=
  (c7_path_derivation "hdfs://clusterA/warehouse/db.db/t"
    "clusterA/warehouse/db.db/t" "warehouse/db.db/t"
    (by decide) (by decide)).1

/-- Claim C8: a location is measured exactly when it contains the scheme token
as a substring, anywhere (not anchored at the start): the guard is equivalent
to substring containment; the three sample locations classify as the claim
states; an unmeasurable record passes the size loop untouched for every
filesystem, and a measurable record gets exactly the outcome of the size query. -/
theorem c8_measurable_iff_contains (loc : String) (fs : FS) (e : Hive) :
    (goContains loc hdfsFlag = true ↔ hdfsFlag.toList <:+: loc.toList) ∧
    goContains "hdfs://cluster/a/b" hdfsFlag = true ∧
    goContains "/local/a/b" hdfsFlag = false ∧
    goContains "" hdfsFlag = false ∧
    (goContains e.Location hdfsFlag = false → applySize fs e = some e) ∧
    (goContains e.Location hdfsFlag = true →
      applySize fs e = (getHdfsSize fs e.Location).map (fun r =>
        match r with
        | .error m => { e with Size := -1, Desc := m }
        | .ok n => { e with Size := n })) := by
  refine ⟨goContains_iff loc hdfsFlag, by decide, by decide, by decide, ?_, ?_⟩
  · intro hc
    simp [applySize, hc]
  · intro hc
    rw [applySize, if_pos hc]
    cases hg : getHdfsSize fs e.Location with
    | none => simp
    | some r => cases r with
      | error m => simp
      | ok n => simp

/-- Witness for C8: a local path is not measured: the record passes the size
loop unchanged. -/
theorem c8_measurable_iff_contains_witness :
    applySize fsOk (Hive.mk "d" "t" "/local/a/b" 0 "")
      = some (Hive.mk "d" "t" "/local/a/b" 0 "") :=
  (c8_measurable_iff_contains "" fsOk (Hive.mk "d" "t" "/local/a/b" 0 "")).2.2.2.2.1
    (by decide)

/-- Claim C9: when the size query of a measurable record fails, the size loop keeps
the record, sets the sentinel size -1 and the error message, and leaves the
database, table and location fields exactly as they were; the rest of the
records are still processed. -/
theorem c9_size_failure_keeps_entry (fs : FS) (e : Hive) (m : String)
    (rest es2 : List Hive)
    (hc : goContains e.Location hdfsFlag = true)
    (hg : getHdfsSize fs e.Location = some (.error m))
    (hrest : sizePass fs rest = some es2) :
    applySize fs e = some (Hive.mk e.Db e.Table e.Location (-1) m) ∧
    sizePass fs (e :: rest) = some (Hive.mk e.Db e.Table e.Location (-1) m :: es2) := by
  have ha : applySize fs e = some (Hive.mk e.Db e.Table e.Location (-1) m) := by
    rw [applySize, if_pos hc, hg]
  refine ⟨ha, ?_⟩
  simp only [sizePass, ha, hrest]

/-- Witness for C9: an entry with a measurable location against an unreachable
filesystem keeps its database, table and location and records the failure. -/
theorem c9_size_failure_keeps_entry_witness :
    applySize fsDown (Hive.mk "d" "t" "hdfs://c/x" 0 "")
        = some (Hive.mk "d" "t" "hdfs://c/x" (-1) (failureWrap "connection refused")) ∧
    sizePass fsDown [Hive.mk "d" "t" "hdfs://c/x" 0 ""]
        = some [Hive.mk "d" "t" "hdfs://c/x" (-1) (failureWrap "connection refused")] :=
  c9_size_failure_keeps_entry fsDown (Hive.mk "d" "t" "hdfs://c/x" 0 "")
    (failureWrap "connection refused") [] [] (by decide) rfl rfl

/-- Claim C10: a location containing the scheme token but no slash after it is
classified measurable, yet the path derivation hits an out-of-range index (the
size loop panics on such a record for every filesystem); in general, whenever
the text after the first scheme token contains no slash, parseHdfsLocation has
no defined result. -/
theorem c10_unguarded_path_derivation :
    goContains "hdfs://cluster" hdfsFlag = true ∧
    parseHdfsLocation "hdfs://cluster" = none ∧
    (∀ fs : FS, applySize fs (Hive.mk "d" "t" "hdfs://cluster" 0 "") = none) ∧
    (∀ loc tail, (goSplit loc hdfsFlag).get? 1 = some tail →
      (goSplit tail "/").length ≤ 1 → parseHdfsLocation loc = none) := by
  refine ⟨by decide, by decide, fun fs => ?_, fun loc tail h1 hlen => ?_⟩
  · have hc : goContains (Hive.mk "d" "t" "hdfs://cluster" 0 "").Location hdfsFlag = true := by
      decide
    rw [applySize, if_pos hc]
    have hgs : getHdfsSize fs (Hive.mk "d" "t" "hdfs://cluster" 0 "").Location = none := by
      rw [getHdfsSize, (by decide : parseHdfsLocation "hdfs://cluster" = none)]
    rw [hgs]
  · have hn2 : (goSplitN2 tail "/").get? 1 = none := by
      rw [goSplitN2]
      cases hs : goSplit tail "/" with
      | nil => rfl
      | cons a rs =>
        cases rs with
        | nil => rfl
        | cons b rs2 =>
          rw [hs] at hlen
          simp at hlen
    simp only [parseHdfsLocation, h1, hn2]

/-- Witness for C10: another authority-only location also has no defined
derivation. -/
theorem c10_unguarded_path_derivation_witness :
    parseHdfsLocation "hdfs://x" = none :=
  c10_unguarded_path_derivation.2.2.2 "hdfs://x" "x" (by decide) (by decide)
